import Mathlib

/-!
Verification development for the `datajoint-tutorials` repository.

The repository's own code consists of notebook cells that declare DataJoint
tables (`Scan`, `AverageFrame`, `SegmentationParam`, `Segmentation` with part
table `Roi`, `Fluorescence` with part table `Trace`, `Neuron`) and implement
their `make` callbacks.  Those callbacks are shallowly embedded below as pure
Lean functions over lists and rationals (numpy arrays become nested lists of
`ℚ`, label images nested lists of `ℕ`).

The `populate` driver, the cascade-delete semantics and the referential
integrity machinery live in the external DataJoint library, which is not part
of the repository; following the specification they are modelled from its
words (definitions whose doc comment starts `Modelled from the spec:`).
The external calls `scipy.ndimage.label` (connected-component labeling) and
`io.imread` (file loading) are treated as parameters whose documented
properties appear as hypotheses.
-/

namespace DJT

/-- Primary key of the `Session` table (`mouse_id`, `session_date`). -/
structure SessionKey where
  mouse_id : Nat
  session_date : String
deriving DecidableEq, Repr

/-- Primary key of the `Scan` table: `-> Session` plus `scan_idx`. -/
structure ScanKey where
  mouse_id : Nat
  session_date : String
  scan_idx : Nat
deriving DecidableEq, Repr

/-- Full row of the manual table `Scan` as defined in
`02-Calcium-Imaging-Imported-Tables.ipynb`. -/
structure ScanRow where
  key : ScanKey
  depth : ℚ
  wavelength : ℚ
  laser_power : ℚ
  fps : ℚ
  file_name : String
deriving DecidableEq, Repr

/-- The three `Scan` rows inserted in the calcium-imaging notebook
(`Scan.insert([...])` with scans 1 and 2, and the later `Scan.insert1` with
`example_scan_03.tif`). -/
def scanInserts : List ScanRow :=
  [ { key := ⟨0, "2017-05-15", 1⟩, depth := 150, wavelength := 920,
      laser_power := 26, fps := 15, file_name := "example_scan_01.tif" },
    { key := ⟨0, "2017-05-15", 2⟩, depth := 200, wavelength := 920,
      laser_power := 24, fps := 15, file_name := "example_scan_02.tif" },
    { key := ⟨100, "2017-05-25", 1⟩, depth := 150, wavelength := 920,
      laser_power := 25, fps := 15, file_name := "example_scan_03.tif" } ]

/-- Pixel access into a nested-list matrix, with a default outside bounds. -/
def px (m : List (List α)) (d : α) (i j : Nat) : α :=
  (m.getD i []).getD j d

/-- The matrix `m` has `w` rows, each of length `h` (numpy shape `(w, h)`). -/
def Rect (m : List (List α)) (w h : Nat) : Prop :=
  m.length = w ∧ ∀ r ∈ m, r.length = h

instance (m : List (List α)) (w h : Nat) : Decidable (Rect m w h) := by
  unfold Rect; infer_instance

/-- Elementwise sum of two matrices (truncating to common shape). -/
def matAdd (a b : List (List ℚ)) : List (List ℚ) :=
  List.zipWith (List.zipWith (· + ·)) a b

/-- Sum of an image stack over its first (frame) axis. -/
def stackSum : List (List (List ℚ)) → List (List ℚ)
  | [] => []
  | [f] => f
  | f :: g :: rest => matAdd f (stackSum (g :: rest))

/-- `np.mean(im, axis=0)`: the arithmetic mean of the stack over the frame
axis, as used in `AverageFrame.make`. -/
def npMeanAxis0 (im : List (List (List ℚ))) : List (List ℚ) :=
  (stackSum im).map (fun row => row.map (fun x => x / (im.length : ℚ)))

/-- Row of the imported table `AverageFrame` (`-> Scan`, `average_frame`). -/
structure AvgFrameRow where
  key : ScanKey
  average_frame : List (List ℚ)
deriving DecidableEq, Repr

/-- The body of `AverageFrame.make` from the calcium-imaging notebook: load
the scan's image stack (`io.imread`, here the parameter `im`), average it over
frames, and build the row inserted by `self.insert1(key)`. -/
def avgFrameMake (key : ScanKey) (im : List (List (List ℚ))) : AvgFrameRow :=
  { key := key, average_frame := npMeanAxis0 im }

/-- The list of inserts issued by one run of `AverageFrame.make`: a single
`self.insert1(key)` with the computed `average_frame` added. -/
def avgFrameMakeInserts (key : ScanKey) (im : List (List (List ℚ))) :
    List AvgFrameRow :=
  [avgFrameMake key im]

/-- Modelled from the spec: the external library's `populate` driver
"enumerates missing dependent entries" — the parent keys (`Scan -
AverageFrame` in the notebook) that have no corresponding row in the table. -/
def keysToPopulate [DecidableEq κ] (parentKeys tableKeys : List κ) : List κ :=
  parentKeys.filter (fun k => decide (k ∉ tableKeys))

/-- Modelled from the spec: the `populate` driver "invokes a user-supplied
per-entry computation callback" (`make`, inserting one row) on each missing
parent key, leaving existing rows untouched. -/
def populateTable [DecidableEq κ] (parentKeys : List κ) (keyOf : ρ → κ)
    (make : κ → ρ) (tbl : List ρ) : List ρ :=
  tbl ++ (keysToPopulate parentKeys (tbl.map keyOf)).map make

/-- The keys on which a `populate` call on `AverageFrame` invokes `make`. -/
def avgCalls (scans : List ScanKey) (tbl : List AvgFrameRow) : List ScanKey :=
  keysToPopulate scans (tbl.map AvgFrameRow.key)

/-- `AverageFrame.populate()`: run the driver with `AverageFrame.make`; the
parameter `imOf` stands for the image stack loaded from each scan's file. -/
def avgPopulate (scans : List ScanKey) (imOf : ScanKey → List (List (List ℚ)))
    (tbl : List AvgFrameRow) : List AvgFrameRow :=
  populateTable scans AvgFrameRow.key (fun k => avgFrameMake k (imOf k)) tbl

/-- The join product of two parents' primary keys (the "every valid
combination of the parent tables" enumerated by `populate` for a table such
as `Segmentation` depending on both `AverageFrame` and `SegmentationParam`). -/
def joinKeys (a : List α) (b : List β) : List (α × β) :=
  a.flatMap (fun x => b.map (fun y => (x, y)))

/-- Primary key of `Segmentation`: `-> AverageFrame`, `-> SegmentationParam`. -/
abbrev SegKey := ScanKey × Nat

/-- Row of the lookup table `SegmentationParam`
(`seg_param_id`, `threshold`, `size_cutoff`). -/
structure SegParamRow where
  seg_param_id : Nat
  threshold : ℚ
  size_cutoff : ℚ
deriving DecidableEq, Repr

/-- `np.unique` of a label image: its distinct pixel values in increasing
order. -/
def npUnique (g : List (List Nat)) : List Nat :=
  (g.flatten.dedup).insertionSort (· ≤ ·)

/-- `np.sum(label_im == i)`: the number of pixels carrying label `i`. -/
def labelSize (g : List (List Nat)) (i : Nat) : Nat :=
  g.flatten.count i

/-- Result of one execution of `Segmentation.make`: the master row's
`segmented_masks` payload and the `Roi` part rows `(roi_idx, mask)`. -/
structure SegOut where
  segmented_masks : List (List Nat)
  rois : List (Nat × List (List Bool))
  reported : Nat
deriving DecidableEq, Repr

/-- `small_size_filter = sizes < size_cutoff` in `Segmentation.make`, where
`sizes = np.array([np.sum(label_im==i) for i in np.unique(label_im)])`: one
boolean per entry of `np.unique(label_im)`. -/
def smallSizeFilter (g : List (List Nat)) (cutoff : ℚ) : List Bool :=
  ((npUnique g).map (fun i => labelSize g i)).map
    (fun s : Nat => decide ((s : ℚ) < cutoff))

/-- `pixel_to_remove = small_size_filter[label_im]; label_im[pixel_to_remove]
= 0`: each pixel's label value indexes `small_size_filter`, and flagged
pixels are zeroed. -/
def removeSmall (g : List (List Nat)) (cutoff : ℚ) : List (List Nat) :=
  g.map (fun row => row.map (fun v =>
    if (smallSizeFilter g cutoff).getD v false then 0 else v))

/-- The body of `Segmentation.make` (computed-tables notebook).  `avg_image`
is fetched from `AverageFrame`, `threshold`/`size_cutoff` from
`SegmentationParam`; `labelIm` is the output `label_im` of the external call
`ndimage.label(avg_image > threshold)`.  The remaining lines are transcribed:
zero out the small blobs (`removeSmall`), then build one ROI dict per
`i in np.unique(label_im)[1:]` with `mask = label_im == i`, and report
`len(rois)`. -/
def segMake (size_cutoff : ℚ) (labelIm : List (List Nat)) : SegOut :=
  let labelIm2 := removeSmall labelIm size_cutoff
  let roiLabels := (npUnique labelIm2).drop 1
  let rois := roiLabels.map (fun i =>
    (i, labelIm2.map (fun row => row.map (fun v => decide (v = i)))))
  { segmented_masks := labelIm2, rois := rois, reported := rois.length }

/-- A single insert issued while a `make` callback runs, tagged by table. -/
inductive DbInsert where
  | segMaster (k : SegKey) (masks : List (List Nat))
  | segRoi (k : SegKey) (idx : Nat) (mask : List (List Bool))
  | fluorMaster (k : SegKey) (time : List ℚ)
  | fluorTrace (k : SegKey) (idx : Nat) (trace : List ℚ)
deriving DecidableEq, Repr

/-- Whether an insert targets a part table (`Roi` or `Trace`). -/
def DbInsert.isPart : DbInsert → Bool
  | .segRoi _ _ _ => true
  | .fluorTrace _ _ _ => true
  | _ => false

/-- Whether an insert targets a master table (`Segmentation`, `Fluorescence`). -/
def DbInsert.isMaster : DbInsert → Bool
  | .segMaster _ _ => true
  | .fluorMaster _ _ => true
  | _ => false

/-- The insert trace of `Segmentation.make`: `self.insert1(dict(**key,
segmented_masks=label_im))` first, then `self.Roi.insert(rois)`. -/
def segMakeEvents (key : SegKey) (size_cutoff : ℚ)
    (labelIm : List (List Nat)) : List DbInsert :=
  DbInsert.segMaster key (segMake size_cutoff labelIm).segmented_masks ::
    (segMake size_cutoff labelIm).rois.map
      (fun r => DbInsert.segRoi key r.1 r.2)

/-- `np.mean(im_reshaped[:, mask_reshaped], axis=1)` for one ROI in
`Fluorescence.make`: per frame, the mean over the pixels selected by the
(reshaped) boolean mask. -/
def roiTrace (im : List (List (List ℚ))) (mask : List (List Bool)) : List ℚ :=
  im.map (fun frame =>
    let vals := (frame.flatten.zip mask.flatten).filterMap
      (fun p => if p.2 then some p.1 else none)
    vals.sum / (vals.length : ℚ))

/-- The insert trace of `Fluorescence.make`: the master row with
`time = np.array(range(n))/fps` is inserted first, then one `Trace` part row
per `Segmentation.Roi` row of the key. -/
def fluorMakeEvents (key : SegKey) (im : List (List (List ℚ))) (fps : ℚ)
    (roiRows : List (Nat × List (List Bool))) : List DbInsert :=
  DbInsert.fluorMaster key
      ((List.range im.length).map (fun t => (t : ℚ) / fps)) ::
    roiRows.map (fun r => DbInsert.fluorTrace key r.1 (roiTrace im r.2))

/-- Row of the imported table `Neuron` (`-> Session`, `neuron_id`,
`activity`). -/
structure NeuronRow where
  mouse_id : Nat
  session_date : String
  neuron_id : Nat
  activity : List ℚ
deriving DecidableEq, Repr

/-- The body of `Neuron.make` (electrophysiology notebook): for each index of
the first dimension of the loaded array, insert a row with `neuron_id = idx`
and `activity` the corresponding slice. -/
def neuronMake (key : SessionKey) (data : List (List ℚ)) : List NeuronRow :=
  data.enum.map (fun d =>
    { mouse_id := key.mouse_id, session_date := key.session_date,
      neuron_id := d.1, activity := d.2 })

/-- The file path built by `Neuron.make`:
`'{data_dir}/data_{mouse_id}_{session_date}.npy'.format(**key, ...)`. -/
def neuronDataFile (data_dir : String) (key : SessionKey) : String :=
  data_dir ++ "/data_" ++ toString key.mouse_id ++ "_" ++
    key.session_date ++ ".npy"

/-- The spec's naming convention `data_{mouse_id}_{session_date}.npy` under a
data directory, as a predicate on the constructed path. -/
def FollowsDataConvention (data_dir s : String) : Prop :=
  ∃ m d : String, s = data_dir ++ "/data_" ++ m ++ "_" ++ d ++ ".npy"

/-- Whether a character is a decimal digit. -/
def isDigitCh (c : Char) : Bool :=
  decide ('0' ≤ c) && decide (c ≤ '9')

/-- Whether a file name has the spec's form `example_scan_NN.tif` with `NN`
two decimal digits. -/
def isExampleScanName (s : String) : Bool :=
  let l := s.data
  decide (l.take 13 = "example_scan_".data) &&
    ((l.drop 13).take 2).all isDigitCh &&
    decide ((l.drop 13).length = 6) &&
    decide (l.drop 15 = ".tif".data)

/-- The database state relevant to the cascade-delete claim: the key sets of
`AverageFrame`, `SegmentationParam`, `Segmentation`, `Segmentation.Roi`,
`Fluorescence` and `Fluorescence.Trace`. -/
structure SegDb where
  avgFrame : List ScanKey
  segParam : List Nat
  segmentation : List SegKey
  roi : List (ScanKey × Nat × Nat)
  fluor : List SegKey
  trace : List (ScanKey × Nat × Nat)
deriving DecidableEq, Repr

/-- The referential-integrity invariant: every row's inherited foreign key
references an existing parent row (`Segmentation -> AverageFrame,
SegmentationParam`; `Roi -> Segmentation`; `Fluorescence -> Segmentation`;
`Trace -> Fluorescence, Segmentation.Roi`). -/
def refIntegrity (db : SegDb) : Prop :=
  (∀ r ∈ db.segmentation, r.1 ∈ db.avgFrame ∧ r.2 ∈ db.segParam) ∧
  (∀ r ∈ db.roi, (r.1, r.2.1) ∈ db.segmentation) ∧
  (∀ r ∈ db.fluor, r ∈ db.segmentation) ∧
  (∀ r ∈ db.trace, (r.1, r.2.1) ∈ db.fluor ∧ r ∈ db.roi)

instance (db : SegDb) : Decidable (refIntegrity db) := by
  unfold refIntegrity; infer_instance

/-- Modelled from the spec: the library's cascade-delete.  Deleting the
`SegmentationParam` row with id `pid` removes every dependent row downstream
(`Segmentation`, `Segmentation.Roi`, `Fluorescence`, `Fluorescence.Trace`
rows carrying `seg_param_id = pid`). -/
def deleteSegParam (db : SegDb) (pid : Nat) : SegDb :=
  { db with
    segParam := db.segParam.filter (fun p => decide (p ≠ pid)),
    segmentation := db.segmentation.filter (fun r => decide (r.2 ≠ pid)),
    roi := db.roi.filter (fun r => decide (r.2.1 ≠ pid)),
    fluor := db.fluor.filter (fun r => decide (r.2 ≠ pid)),
    trace := db.trace.filter (fun r => decide (r.2.1 ≠ pid)) }

/-- Modelled from the spec: cascade-delete of
`(Segmentation & 'seg_param_id = pid').delete()` — the restricted
`Segmentation` rows and their dependents are removed; `SegmentationParam`
itself is untouched. -/
def deleteSegRestricted (db : SegDb) (pid : Nat) : SegDb :=
  { db with
    segmentation := db.segmentation.filter (fun r => decide (r.2 ≠ pid)),
    roi := db.roi.filter (fun r => decide (r.2.1 ≠ pid)),
    fluor := db.fluor.filter (fun r => decide (r.2 ≠ pid)),
    trace := db.trace.filter (fun r => decide (r.2.1 ≠ pid)) }

/-- `SegmentationParam.insert1`: add a parameter id. -/
def insertSegParam (db : SegDb) (pid : Nat) : SegDb :=
  { db with segParam := db.segParam ++ [pid] }

/-- `Segmentation.populate()` at the database level: run the driver over the
join product of the parents' keys and insert, for each missing key, the
master row and its `Roi` part rows (`mkRois k` lists the `roi_idx` values
that this key's `make` execution produces). -/
def segPopulateDb (db : SegDb) (mkRois : SegKey → List Nat) : SegDb :=
  let missing := keysToPopulate (joinKeys db.avgFrame db.segParam)
    db.segmentation
  { db with
    segmentation := db.segmentation ++ missing,
    roi := db.roi ++ missing.flatMap
      (fun k => (mkRois k).map (fun i => (k.1, k.2, i))) }

/-- Result of a `populate` call: the table contents afterwards and the error
message raised, if any. -/
structure PopResult (ρ : Type) where
  table : List ρ
  error : Option String
deriving Repr

/-- Modelled from the spec: "populate fails until `make` is defined" — when
the class supplies no `make` callback the driver raises
`NotImplementedError` and leaves the table unchanged; otherwise it runs the
ordinary driver. -/
def populateChecked [DecidableEq κ] (mk? : Option (κ → ρ)) (keyOf : ρ → κ)
    (parentKeys : List κ) (tbl : List ρ) : PopResult ρ :=
  match mk? with
  | none => { table := tbl,
              error := some "NotImplementedError: make is not implemented" }
  | some mk => { table := populateTable parentKeys keyOf mk tbl, error := none }

/-! ## Helper lemmas about the populate driver -/

theorem mem_keysToPopulate [DecidableEq κ] {parent tblKeys : List κ} {k : κ} :
    k ∈ keysToPopulate parent tblKeys ↔ k ∈ parent ∧ k ∉ tblKeys := by
  simp [keysToPopulate]

theorem count_keysToPopulate [DecidableEq κ] (parent tblKeys : List κ)
    (hnd : parent.Nodup) (k : κ) :
    (keysToPopulate parent tblKeys).count k =
      if k ∈ parent ∧ k ∉ tblKeys then 1 else 0 := by
  by_cases h : k ∈ parent ∧ k ∉ tblKeys
  · rw [if_pos h]
    exact List.count_eq_one_of_mem (hnd.filter _) (mem_keysToPopulate.2 h)
  · rw [if_neg h]
    exact List.count_eq_zero.2 (fun hm => h (mem_keysToPopulate.1 hm))

theorem keysToPopulate_after_populate [DecidableEq κ] (parent : List κ)
    (keyOf : ρ → κ) (make : κ → ρ) (hmk : ∀ k, keyOf (make k) = k)
    (tbl : List ρ) :
    keysToPopulate parent
      ((populateTable parent keyOf make tbl).map keyOf) = [] := by
  rw [keysToPopulate, List.filter_eq_nil_iff]
  intro k hk
  simp only [populateTable, List.map_append, List.map_map, decide_not,
    Bool.not_eq_eq_eq_not, Bool.not_true, decide_eq_false_iff_not, not_not]
  rw [List.mem_append]
  by_cases hmem : k ∈ tbl.map keyOf
  · exact Or.inl hmem
  · refine Or.inr ?_
    have : k ∈ keysToPopulate parent (tbl.map keyOf) :=
      mem_keysToPopulate.2 ⟨hk, hmem⟩
    simpa [Function.comp, hmk] using List.mem_map_of_mem (keyOf ∘ make) this

theorem populateTable_idem [DecidableEq κ] (parent : List κ)
    (keyOf : ρ → κ) (make : κ → ρ) (hmk : ∀ k, keyOf (make k) = k)
    (tbl : List ρ) :
    populateTable parent keyOf make (populateTable parent keyOf make tbl) =
      populateTable parent keyOf make tbl := by
  conv_lhs => rw [populateTable]
  rw [keysToPopulate_after_populate parent keyOf make hmk tbl]
  simp

theorem mem_joinKeys {a : List α} {b : List β} {p : α × β} :
    p ∈ joinKeys a b ↔ p.1 ∈ a ∧ p.2 ∈ b := by
  cases p with
  | mk x y =>
    constructor
    · intro hp
      rcases List.mem_flatMap.1 hp with ⟨u, hu, hp'⟩
      rcases List.mem_map.1 hp' with ⟨v, hv, hpe⟩
      cases hpe
      exact ⟨hu, hv⟩
    · rintro ⟨hx, hy⟩
      exact List.mem_flatMap.2 ⟨x, hx, List.mem_map.2 ⟨y, hy, rfl⟩⟩

theorem nodup_joinKeys {a : List α} {b : List β}
    (ha : a.Nodup) (hb : b.Nodup) : (joinKeys a b).Nodup := by
  induction a with
  | nil => simp [joinKeys]
  | cons p a ih =>
    rcases List.nodup_cons.1 ha with ⟨hpa, ha'⟩
    have hsplit : joinKeys (p :: a) b =
        (b.map (fun q => (p, q))) ++ joinKeys a b := by
      simp [joinKeys]
    rw [hsplit]
    refine List.Nodup.append ?_ (ih ha') ?_
    · exact hb.map (fun q q' h => by simpa using h)
    · intro x hx1 hx2
      rcases List.mem_map.1 hx1 with ⟨q, hq, rfl⟩
      exact hpa (mem_joinKeys.1 hx2).1

/-! ## Claim theorems C1 - C3 -/

/-- C1: `populate` on `AverageFrame` invokes `make` exactly once for each
`Scan` primary key missing from the table and never for a key already
present; a second `populate` right after a complete population invokes
`make` zero times and leaves the table unchanged. -/
theorem averageFrame_populate_correct
    (scans : List ScanKey) (imOf : ScanKey → List (List (List ℚ)))
    (tbl : List AvgFrameRow) (hnd : scans.Nodup) :
    (∀ k, (avgCalls scans tbl).count k =
        if k ∈ scans ∧ k ∉ tbl.map AvgFrameRow.key then 1 else 0) ∧
    (∀ k, k ∈ tbl.map AvgFrameRow.key → k ∉ avgCalls scans tbl) ∧
    avgCalls scans (avgPopulate scans imOf tbl) = [] ∧
    avgPopulate scans imOf (avgPopulate scans imOf tbl) =
      avgPopulate scans imOf tbl := by
  refine ⟨fun k => count_keysToPopulate scans _ hnd k, ?_, ?_, ?_⟩
  · intro k hk hmem
    exact (mem_keysToPopulate.1 hmem).2 hk
  · exact keysToPopulate_after_populate scans AvgFrameRow.key _
      (fun k => rfl) tbl
  · exact populateTable_idem scans AvgFrameRow.key _ (fun k => rfl) tbl

/-- Witness for C1 at the two scans of the notebook and an empty table. -/
theorem averageFrame_populate_correct_witness :
    ([⟨0, "2017-05-15", 1⟩, ⟨0, "2017-05-15", 2⟩] : List ScanKey).Nodup ∧
    avgCalls [⟨0, "2017-05-15", 1⟩, ⟨0, "2017-05-15", 2⟩]
      (avgPopulate [⟨0, "2017-05-15", 1⟩, ⟨0, "2017-05-15", 2⟩]
        (fun _ => [[[2, 4]]]) []) = [] :=
  ⟨by decide,
    (averageFrame_populate_correct [⟨0, "2017-05-15", 1⟩, ⟨0, "2017-05-15", 2⟩]
      (fun _ => [[[2, 4]]]) [] (by decide)).2.2.1⟩

/-- C2: `populate` on `Segmentation` invokes `make` once per key of the join
product of the parents' primary keys that is absent from the table, and when
`SegmentationParam` is empty it invokes `make` zero times and changes no
table. -/
theorem segmentation_populate_join
    (avgKeys : List ScanKey) (params : List Nat) (tbl : List SegKey)
    (ha : avgKeys.Nodup) (hp : params.Nodup) :
    ((keysToPopulate (joinKeys avgKeys params) tbl).Nodup ∧
      ∀ k, k ∈ keysToPopulate (joinKeys avgKeys params) tbl ↔
        k ∈ joinKeys avgKeys params ∧ k ∉ tbl) ∧
    (params = [] → keysToPopulate (joinKeys avgKeys params) tbl = []) ∧
    (∀ (db : SegDb) (mkRois : SegKey → List Nat),
        db.segParam = [] → segPopulateDb db mkRois = db) := by
  refine ⟨⟨(nodup_joinKeys ha hp).filter _, fun k => mem_keysToPopulate⟩,
    ?_, ?_⟩
  · intro hempty
    subst hempty
    simp [joinKeys, keysToPopulate]
  · intro db mkRois hempty
    have hjoin : joinKeys db.avgFrame db.segParam = [] := by
      simp [joinKeys, hempty]
    simp [segPopulateDb, hjoin, keysToPopulate]

/-- Witness for C2 with one average frame and no parameter set. -/
theorem segmentation_populate_join_witness :
    ([⟨0, "2017-05-15", 1⟩] : List ScanKey).Nodup ∧ ([] : List Nat).Nodup ∧
    segPopulateDb ⟨[⟨0, "2017-05-15", 1⟩], [], [], [], [], []⟩
      (fun _ => [1]) = ⟨[⟨0, "2017-05-15", 1⟩], [], [], [], [], []⟩ :=
  ⟨by decide, by decide,
    (segmentation_populate_join [⟨0, "2017-05-15", 1⟩] [] [] (by decide)
      (by decide)).2.2 ⟨[⟨0, "2017-05-15", 1⟩], [], [], [], [], []⟩
      (fun _ => [1]) rfl⟩

/-- C3: calling `populate` on an auto-populated table whose class defines no
`make` raises a "make not implemented" error and leaves the table unchanged;
with `make` defined the same call succeeds and runs the driver. -/
theorem populate_requires_make
    (scans : List ScanKey) (tbl : List AvgFrameRow) :
    ((populateChecked none AvgFrameRow.key scans tbl).error =
        some "NotImplementedError: make is not implemented" ∧
      (populateChecked none AvgFrameRow.key scans tbl).table = tbl) ∧
    ∀ mk : ScanKey → AvgFrameRow,
      (populateChecked (some mk) AvgFrameRow.key scans tbl).error = none ∧
      (populateChecked (some mk) AvgFrameRow.key scans tbl).table =
        populateTable scans AvgFrameRow.key mk tbl :=
  ⟨⟨rfl, rfl⟩, fun _ => ⟨rfl, rfl⟩⟩

/-! ## Helper lemmas about matrices and pixels -/

theorem rect_map (f : α → β) {m : List (List α)} {w h : Nat}
    (hr : Rect m w h) : Rect (m.map (fun row => row.map f)) w h := by
  constructor
  · simpa using hr.1
  · intro r hrm
    rcases List.mem_map.1 hrm with ⟨r', hr', rfl⟩
    simpa using hr.2 r' hr'

theorem px_getElem {m : List (List α)} {w h : Nat} (hr : Rect m w h) (d : α)
    {i j : Nat} (hi : i < w) (hj : j < h) :
    ∃ (hiL : i < m.length) (hjL : j < (m.get ⟨i, hiL⟩).length),
      px m d i j = (m.get ⟨i, hiL⟩).get ⟨j, hjL⟩ := by
  have him : i < m.length := hr.1 ▸ hi
  have hjm : j < (m[i]).length := by
    rw [hr.2 _ (List.getElem_mem him)]; exact hj
  refine ⟨him, hjm, ?_⟩
  rw [px, List.getD_eq_getElem m [] him, List.getD_eq_getElem _ d hjm]
  rfl

theorem px_map (f : α → β) (m : List (List α)) (d : α) (d' : β) (w h : Nat)
    (hr : Rect m w h) (i j : Nat) (hi : i < w) (hj : j < h) :
    px (m.map (fun row => row.map f)) d' i j = f (px m d i j) := by
  obtain ⟨him, hjm, h2⟩ := px_getElem hr d hi hj
  obtain ⟨him', hjm', h3⟩ := px_getElem (rect_map f hr) d' hi hj
  rw [h2, h3]
  simp [List.get_eq_getElem]

theorem px_mem_flatten {m : List (List α)} {w h : Nat} (hr : Rect m w h)
    {i j : Nat} (hi : i < w) (hj : j < h) (d : α) :
    px m d i j ∈ m.flatten := by
  obtain ⟨him, hjm, h2⟩ := px_getElem hr d hi hj
  rw [h2]
  exact List.mem_flatten.2 ⟨m.get ⟨i, him⟩, m.get_mem i him,
    (m.get ⟨i, him⟩).get_mem j hjm⟩

theorem rect_matAdd {a b : List (List ℚ)} {w h : Nat}
    (hA : Rect a w h) (hB : Rect b w h) : Rect (matAdd a b) w h := by
  constructor
  · rw [matAdd, List.length_zipWith, hA.1, hB.1, Nat.min_self]
  · intro r hr
    rw [matAdd] at hr
    rcases List.mem_iff_getElem.1 hr with ⟨i, hi, hre⟩
    have hia : i < a.length := by
      rw [List.length_zipWith, hA.1, hB.1, Nat.min_self] at hi
      rw [hA.1]; exact hi
    have hib : i < b.length := by
      rw [List.length_zipWith, hA.1, hB.1, Nat.min_self] at hi
      rw [hB.1]; exact hi
    rw [List.getElem_zipWith] at hre
    rw [← hre, List.length_zipWith, hA.2 _ (List.getElem_mem hia),
      hB.2 _ (List.getElem_mem hib), Nat.min_self]

theorem px_matAdd {a b : List (List ℚ)} {w h : Nat}
    (hA : Rect a w h) (hB : Rect b w h) {i j : Nat} (hi : i < w)
    (hj : j < h) :
    px (matAdd a b) 0 i j = px a 0 i j + px b 0 i j := by
  have hia : i < a.length := hA.1 ▸ hi
  have hib : i < b.length := hB.1 ▸ hi
  have hja : j < (a[i]).length := by
    rw [hA.2 _ (List.getElem_mem hia)]; exact hj
  have hjb : j < (b[i]).length := by
    rw [hB.2 _ (List.getElem_mem hib)]; exact hj
  obtain ⟨hiz, hjz, hz⟩ := px_getElem (rect_matAdd hA hB) (0 : ℚ) hi hj
  obtain ⟨hia', hja', hA'⟩ := px_getElem hA (0 : ℚ) hi hj
  obtain ⟨hib', hjb', hB'⟩ := px_getElem hB (0 : ℚ) hi hj
  rw [hz, hA', hB']
  simp only [matAdd, List.get_eq_getElem, List.getElem_zipWith]

theorem rect_stackSum {w h : Nat} : ∀ (im : List (List (List ℚ))),
    im ≠ [] → (∀ f ∈ im, Rect f w h) → Rect (stackSum im) w h
  | [], hne, _ => absurd rfl hne
  | [f], _, hr => by simpa [stackSum] using hr f (by simp)
  | f :: g :: rest, _, hr => by
    have h1 : Rect f w h := hr f (by simp)
    have h2 : Rect (stackSum (g :: rest)) w h :=
      rect_stackSum (g :: rest) (by simp)
        (fun x hx => hr x (List.mem_cons_of_mem f hx))
    exact rect_matAdd h1 h2

theorem px_stackSum {w h i j : Nat} (hi : i < w) (hj : j < h) :
    ∀ (im : List (List (List ℚ))), im ≠ [] → (∀ f ∈ im, Rect f w h) →
      px (stackSum im) 0 i j = (im.map (fun f => px f 0 i j)).sum
  | [], hne, _ => absurd rfl hne
  | [f], _, _ => by simp [stackSum]
  | f :: g :: rest, _, hr => by
    have h1 : Rect f w h := hr f (by simp)
    have h2 : Rect (stackSum (g :: rest)) w h :=
      rect_stackSum (g :: rest) (by simp)
        (fun x hx => hr x (List.mem_cons_of_mem f hx))
    have ih := px_stackSum hi hj (g :: rest) (by simp)
      (fun x hx => hr x (List.mem_cons_of_mem f hx))
    rw [show stackSum (f :: g :: rest) = matAdd f (stackSum (g :: rest))
      from rfl, px_matAdd h1 h2 hi hj, ih]
    simp

/-! ## Claim theorem C6 -/

/-- C6: for every `Scan` key, `AverageFrame.make` inserts exactly one row
whose `average_frame` is the arithmetic mean of the loaded n-by-w-by-h image
stack over the frame axis: the stored array has shape w-by-h and each pixel
is the mean of that pixel over the n frames. -/
theorem averageFrame_make_mean (key : ScanKey) (im : List (List (List ℚ)))
    (w h : Nat) (hn : 0 < im.length) (hrect : ∀ f ∈ im, Rect f w h) :
    (avgFrameMakeInserts key im).length = 1 ∧
    ∀ r ∈ avgFrameMakeInserts key im, r.key = key ∧
      Rect r.average_frame w h ∧
      ∀ i < w, ∀ j < h, px r.average_frame 0 i j =
        (im.map (fun f => px f 0 i j)).sum / (im.length : ℚ) := by
  refine ⟨rfl, ?_⟩
  intro r hrm
  have hre : r = avgFrameMake key im := by
    simpa [avgFrameMakeInserts] using hrm
  subst hre
  have hne : im ≠ [] := List.length_pos.1 hn
  have hss : Rect (stackSum im) w h := rect_stackSum im hne hrect
  refine ⟨rfl, rect_map _ hss, ?_⟩
  intro i hi j hj
  show px (npMeanAxis0 im) 0 i j = _
  rw [npMeanAxis0, px_map _ (stackSum im) 0 0 w h hss i j hi hj,
    px_stackSum hi hj im hne hrect]

/-- Witness for C6 on a 2-by-2-by-2 stack. -/
theorem averageFrame_make_mean_witness :
    0 < ([[[(1 : ℚ), 3], [5, 7]], [[3, 5], [7, 9]]]).length ∧
    (∀ f ∈ ([[[(1 : ℚ), 3], [5, 7]], [[3, 5], [7, 9]]] :
        List (List (List ℚ))), Rect f 2 2) ∧
    (avgFrameMakeInserts ⟨0, "2017-05-15", 1⟩
      [[[(1 : ℚ), 3], [5, 7]], [[3, 5], [7, 9]]]).length = 1 :=
  ⟨by decide, by decide,
    (averageFrame_make_mean ⟨0, "2017-05-15", 1⟩
      [[[(1 : ℚ), 3], [5, 7]], [[3, 5], [7, 9]]] 2 2 (by decide)
      (by decide)).1⟩

/-! ## Claim theorems C10, C5, C8 -/

/-- C10: for every `Session` key, `Neuron.make` inserts exactly
`data.shape[0]` rows, one per index of the first dimension, with
`neuron_id = idx` and `activity` the idx-th slice; a 1-by-n file yields
exactly one row with `neuron_id = 0`. -/
theorem neuron_make_rows (key : SessionKey) (data : List (List ℚ)) :
    (neuronMake key data).length = data.length ∧
    (∀ i, i < data.length →
      ({ mouse_id := key.mouse_id, session_date := key.session_date,
         neuron_id := i, activity := data.getD i [] } : NeuronRow) ∈
        neuronMake key data) ∧
    (∀ r ∈ neuronMake key data, r.mouse_id = key.mouse_id ∧
      r.session_date = key.session_date ∧ r.neuron_id < data.length ∧
      r.activity = data.getD r.neuron_id []) ∧
    (data.length = 1 → neuronMake key data =
      [{ mouse_id := key.mouse_id, session_date := key.session_date,
         neuron_id := 0, activity := data.getD 0 [] }]) := by
  refine ⟨by simp [neuronMake], ?_, ?_, ?_⟩
  · intro i hi
    rw [List.mem_iff_getElem]
    have hlen : i < (neuronMake key data).length := by
      simpa [neuronMake] using hi
    refine ⟨i, hlen, ?_⟩
    simp only [neuronMake, List.getElem_map, List.getElem_enum]
    rw [List.getD_eq_getElem data [] hi]
  · intro r hr
    rcases List.mem_iff_getElem.1 hr with ⟨i, hlen, hre⟩
    have hi : i < data.length := by simpa [neuronMake] using hlen
    simp only [neuronMake, List.getElem_map, List.getElem_enum] at hre
    rw [← hre]
    refine ⟨rfl, rfl, hi, ?_⟩
    rw [List.getD_eq_getElem data [] hi]
  · intro hone
    rcases List.length_eq_one.1 hone with ⟨d, rfl⟩
    simp [neuronMake]

/-- Witness for C10 on a 1-by-3 data array. -/
theorem neuron_make_rows_witness :
    ([[(1 : ℚ), 2, 3]] : List (List ℚ)).length = 1 ∧
    neuronMake ⟨100, "2017-06-01"⟩ [[(1 : ℚ), 2, 3]] =
      [{ mouse_id := 100, session_date := "2017-06-01", neuron_id := 0,
         activity := [(1 : ℚ), 2, 3] }] :=
  ⟨rfl, by
    have h := (neuron_make_rows ⟨100, "2017-06-01"⟩
      [[(1 : ℚ), 2, 3]]).2.2.2 rfl
    simpa using h⟩

/-- C5: `Neuron.make` reads exactly
`data_dir/data_{mouse_id}_{session_date}.npy` built from the key's primary
attributes, and every `file_name` stored in `Scan` (read by
`AverageFrame.make`) has the form `example_scan_NN.tif`. -/
theorem file_naming_convention (data_dir : String) (key : SessionKey)
    (s : String) (hs : s ∈ scanInserts.map ScanRow.file_name) :
    FollowsDataConvention data_dir (neuronDataFile data_dir key) ∧
    isExampleScanName s = true := by
  refine ⟨⟨toString key.mouse_id, key.session_date, rfl⟩, ?_⟩
  have hcases : s = "example_scan_01.tif" ∨ s = "example_scan_02.tif" ∨
      s = "example_scan_03.tif" := by
    simpa [scanInserts] using hs
  rcases hcases with rfl | rfl | rfl <;> decide

/-- Witness for C5 at the first scan file. -/
theorem file_naming_convention_witness :
    "example_scan_01.tif" ∈ scanInserts.map ScanRow.file_name ∧
    (FollowsDataConvention "/data"
        (neuronDataFile "/data" ⟨0, "2017-05-15"⟩) ∧
      isExampleScanName "example_scan_01.tif" = true) :=
  ⟨by decide, file_naming_convention "/data" ⟨0, "2017-05-15"⟩
    "example_scan_01.tif" (by decide)⟩

theorem take_head_master (m : DbInsert) (rest : List DbInsert)
    (hm : m.isMaster = true) (n : Nat)
    (h : ∃ e ∈ (m :: rest).take n, e.isPart = true) :
    ∃ e ∈ (m :: rest).take n, e.isMaster = true := by
  cases n with
  | zero => simp at h
  | succ k => exact ⟨m, by simp, hm⟩

/-- C8: in `Segmentation.make` and `Fluorescence.make` the master-table row
is inserted before any part-table row, so no prefix of the insert trace
contains a part row (`Roi`, `Trace`) without its master row. -/
theorem master_inserted_before_parts
    (key : SegKey) (size_cutoff : ℚ) (labelIm : List (List Nat))
    (im : List (List (List ℚ))) (fps : ℚ)
    (roiRows : List (Nat × List (List Bool))) (n : Nat) :
    ((∃ e ∈ (segMakeEvents key size_cutoff labelIm).take n,
        e.isPart = true) →
      ∃ e ∈ (segMakeEvents key size_cutoff labelIm).take n,
        e.isMaster = true) ∧
    ((∃ e ∈ (fluorMakeEvents key im fps roiRows).take n, e.isPart = true) →
      ∃ e ∈ (fluorMakeEvents key im fps roiRows).take n,
        e.isMaster = true) := by
  rw [segMakeEvents, fluorMakeEvents]
  refine ⟨take_head_master _ _ ?_ n, take_head_master _ _ ?_ n⟩ <;> rfl

/-- Witness for C8: a `Segmentation.make` run with one ROI whose trace has
its part insert in the two-step prefix. -/
theorem master_inserted_before_parts_witness :
    (∃ e ∈ (segMakeEvents (⟨0, "2017-05-15", 1⟩, 0) 1
        [[1, 0], [1, 0]]).take 2, e.isPart = true) ∧
    (∃ e ∈ (segMakeEvents (⟨0, "2017-05-15", 1⟩, 0) 1
        [[1, 0], [1, 0]]).take 2, e.isMaster = true) :=
  ⟨by decide,
    (master_inserted_before_parts (⟨0, "2017-05-15", 1⟩, 0) 1
      [[1, 0], [1, 0]] [] 1 [] 2).1 (by decide)⟩

/-! ## Referential-integrity helpers and claim C4 -/

theorem refIntegrity_deleteSegParam {db : SegDb} (h : refIntegrity db)
    (pid : Nat) : refIntegrity (deleteSegParam db pid) := by
  obtain ⟨hseg, hroi, hflu, htr⟩ := h
  refine ⟨?_, ?_, ?_, ?_⟩
  · intro r hr
    have hr' := List.mem_filter.1 hr
    exact ⟨(hseg r hr'.1).1,
      List.mem_filter.2 ⟨(hseg r hr'.1).2, hr'.2⟩⟩
  · intro r hr
    have hr' := List.mem_filter.1 hr
    exact List.mem_filter.2 ⟨hroi r hr'.1, hr'.2⟩
  · intro r hr
    have hr' := List.mem_filter.1 hr
    exact List.mem_filter.2 ⟨hflu r hr'.1, hr'.2⟩
  · intro r hr
    have hr' := List.mem_filter.1 hr
    exact ⟨List.mem_filter.2 ⟨(htr r hr'.1).1, hr'.2⟩,
      List.mem_filter.2 ⟨(htr r hr'.1).2, hr'.2⟩⟩

theorem refIntegrity_deleteSegRestricted {db : SegDb} (h : refIntegrity db)
    (pid : Nat) : refIntegrity (deleteSegRestricted db pid) := by
  obtain ⟨hseg, hroi, hflu, htr⟩ := h
  refine ⟨?_, ?_, ?_, ?_⟩
  · intro r hr
    exact hseg r (List.mem_filter.1 hr).1
  · intro r hr
    have hr' := List.mem_filter.1 hr
    exact List.mem_filter.2 ⟨hroi r hr'.1, hr'.2⟩
  · intro r hr
    have hr' := List.mem_filter.1 hr
    exact List.mem_filter.2 ⟨hflu r hr'.1, hr'.2⟩
  · intro r hr
    have hr' := List.mem_filter.1 hr
    exact ⟨List.mem_filter.2 ⟨(htr r hr'.1).1, hr'.2⟩,
      List.mem_filter.2 ⟨(htr r hr'.1).2, hr'.2⟩⟩

theorem refIntegrity_insertSegParam {db : SegDb} (h : refIntegrity db)
    (pid : Nat) : refIntegrity (insertSegParam db pid) := by
  obtain ⟨hseg, hroi, hflu, htr⟩ := h
  exact ⟨fun r hr => ⟨(hseg r hr).1,
      List.mem_append_left _ (hseg r hr).2⟩,
    hroi, hflu, htr⟩

theorem refIntegrity_segPopulateDb {db : SegDb} (h : refIntegrity db)
    (mkRois : SegKey → List Nat) :
    refIntegrity (segPopulateDb db mkRois) := by
  obtain ⟨hseg, hroi, hflu, htr⟩ := h
  refine ⟨?_, ?_, ?_, ?_⟩
  · intro r hr
    rcases List.mem_append.1 hr with hold | hnew
    · exact hseg r hold
    · have := mem_joinKeys.1 (mem_keysToPopulate.1 hnew).1
      exact this
  · intro r hr
    rcases List.mem_append.1 hr with hold | hnew
    · exact List.mem_append_left _ (hroi r hold)
    · rcases List.mem_flatMap.1 hnew with ⟨k, hk, hrk⟩
      rcases List.mem_map.1 hrk with ⟨i, _, rfl⟩
      exact List.mem_append_right _ hk
  · intro r hr
    exact List.mem_append_left _ (hflu r hr)
  · intro r hr
    exact ⟨(htr r hr).1, List.mem_append_left _ (htr r hr).2⟩

/-- C4: deleting a parent entry cascades to every dependent row — after
deleting `seg_param_id = pid` from `SegmentationParam` no row carrying that
id remains in `Segmentation`, `Segmentation.Roi` or further downstream — and
the referential-integrity invariant is preserved by delete (both the
cascading parent delete and the restricted `Segmentation` delete), insert
and populate. -/
theorem cascade_delete_refIntegrity (db : SegDb) (pid newPid : Nat)
    (mkRois : SegKey → List Nat) (h : refIntegrity db) :
    (pid ∉ (deleteSegParam db pid).segParam ∧
      (∀ r ∈ (deleteSegParam db pid).segmentation, r.2 ≠ pid) ∧
      (∀ r ∈ (deleteSegParam db pid).roi, r.2.1 ≠ pid) ∧
      (∀ r ∈ (deleteSegParam db pid).fluor, r.2 ≠ pid) ∧
      (∀ r ∈ (deleteSegParam db pid).trace, r.2.1 ≠ pid)) ∧
    refIntegrity (deleteSegParam db pid) ∧
    refIntegrity (deleteSegRestricted db pid) ∧
    refIntegrity (insertSegParam db newPid) ∧
    refIntegrity (segPopulateDb db mkRois) := by
  refine ⟨⟨?_, ?_, ?_, ?_, ?_⟩, refIntegrity_deleteSegParam h pid,
    refIntegrity_deleteSegRestricted h pid,
    refIntegrity_insertSegParam h newPid,
    refIntegrity_segPopulateDb h mkRois⟩
  · intro hmem
    have := (List.mem_filter.1 hmem).2
    simp at this
  · intro r hr
    have := (List.mem_filter.1 hr).2
    simpa using this
  · intro r hr
    have := (List.mem_filter.1 hr).2
    simpa using this
  · intro r hr
    have := (List.mem_filter.1 hr).2
    simpa using this
  · intro r hr
    have := (List.mem_filter.1 hr).2
    simpa using this

/-- Witness for C4 on a one-row-per-table database. -/
theorem cascade_delete_refIntegrity_witness :
    refIntegrity ⟨[⟨0, "2017-05-15", 1⟩], [0, 1],
      [(⟨0, "2017-05-15", 1⟩, 0)], [(⟨0, "2017-05-15", 1⟩, 0, 1)],
      [(⟨0, "2017-05-15", 1⟩, 0)], [(⟨0, "2017-05-15", 1⟩, 0, 1)]⟩ ∧
    refIntegrity (deleteSegParam ⟨[⟨0, "2017-05-15", 1⟩], [0, 1],
      [(⟨0, "2017-05-15", 1⟩, 0)], [(⟨0, "2017-05-15", 1⟩, 0, 1)],
      [(⟨0, "2017-05-15", 1⟩, 0)], [(⟨0, "2017-05-15", 1⟩, 0, 1)]⟩ 0) :=
  ⟨by decide,
    (cascade_delete_refIntegrity ⟨[⟨0, "2017-05-15", 1⟩], [0, 1],
      [(⟨0, "2017-05-15", 1⟩, 0)], [(⟨0, "2017-05-15", 1⟩, 0, 1)],
      [(⟨0, "2017-05-15", 1⟩, 0)], [(⟨0, "2017-05-15", 1⟩, 0, 1)]⟩ 0 5
      (fun _ => [1]) (by decide)).2.1⟩

/-! ## Helper lemmas for `Segmentation.make` -/

theorem mem_npUnique {g : List (List Nat)} {x : Nat} :
    x ∈ npUnique g ↔ x ∈ g.flatten := by
  rw [npUnique, List.mem_insertionSort, List.mem_dedup]

theorem nodup_npUnique (g : List (List Nat)) : (npUnique g).Nodup :=
  ((List.perm_insertionSort _ _).nodup_iff).2 (List.nodup_dedup _)

theorem sorted_npUnique (g : List (List Nat)) :
    (npUnique g).Sorted (· ≤ ·) :=
  List.sorted_insertionSort _ _

theorem mem_drop_one_sorted {l : List Nat} (hs : l.Sorted (· ≤ ·))
    (hn : l.Nodup) (h0 : (0 : Nat) ∈ l) (x : Nat) :
    x ∈ l.drop 1 ↔ x ∈ l ∧ x ≠ 0 := by
  cases l with
  | nil => cases h0
  | cons a t =>
    have hat : ∀ b ∈ t, a ≤ b := (List.sorted_cons.1 hs).1
    have hnt : a ∉ t := (List.nodup_cons.1 hn).1
    have ha0 : a = 0 := by
      rcases List.mem_cons.1 h0 with h | h
      · exact h.symm
      · exact Nat.le_zero.1 (hat 0 h)
    subst ha0
    show x ∈ t ↔ x ∈ 0 :: t ∧ x ≠ 0
    constructor
    · intro hx
      refine ⟨List.mem_cons_of_mem _ hx, fun hx0 => ?_⟩
      subst hx0
      exact hnt hx
    · rintro ⟨hm, hne⟩
      rcases List.mem_cons.1 hm with h | h
      · exact absurd h hne
      · exact h

theorem flatten_removeSmall (g : List (List Nat)) (cutoff : ℚ) :
    (removeSmall g cutoff).flatten = g.flatten.map (fun v =>
      if (smallSizeFilter g cutoff).getD v false then 0 else v) :=
  (List.map_flatten _ g).symm

theorem smallSizeFilter_getD (g : List (List Nat)) (cutoff : ℚ) (nb : Nat)
    (huniq : npUnique g = List.range (nb + 1)) {v : Nat} (hv : v < nb + 1) :
    (smallSizeFilter g cutoff).getD v false =
      decide ((labelSize g v : ℚ) < cutoff) := by
  rw [smallSizeFilter, huniq, List.map_map]
  have hlen : v < ((List.range (nb + 1)).map
      ((fun s : Nat => decide ((s : ℚ) < cutoff)) ∘
        (fun i => labelSize g i))).length := by
    simpa using hv
  rw [List.getD_eq_getElem _ _ hlen, List.getElem_map]
  simp [List.getElem_range]

theorem val_lt_of_uniq {g : List (List Nat)} {nb : Nat}
    (huniq : npUnique g = List.range (nb + 1)) {v : Nat}
    (hv : v ∈ g.flatten) : v < nb + 1 := by
  have h1 : v ∈ npUnique g := mem_npUnique.2 hv
  rw [huniq] at h1
  simpa using h1

theorem zero_mem_flatten_of_uniq {g : List (List Nat)} {nb : Nat}
    (huniq : npUnique g = List.range (nb + 1)) : (0 : Nat) ∈ g.flatten := by
  have h1 : (0 : Nat) ∈ npUnique g := by
    rw [huniq]; simp
  exact mem_npUnique.1 h1

theorem px_removeSmall (g : List (List Nat)) (cutoff : ℚ) (nb w h : Nat)
    (hg : Rect g w h) (huniq : npUnique g = List.range (nb + 1))
    {i j : Nat} (hi : i < w) (hj : j < h) :
    px (removeSmall g cutoff) 0 i j =
      if (labelSize g (px g 0 i j) : ℚ) < cutoff then 0 else px g 0 i j := by
  rw [removeSmall, px_map _ g 0 0 w h hg i j hi hj,
    smallSizeFilter_getD g cutoff nb huniq
      (val_lt_of_uniq huniq (px_mem_flatten hg hi hj 0))]
  by_cases hc : (labelSize g (px g 0 i j) : ℚ) < cutoff <;> simp [hc]

theorem nonzero_mem_removeSmall {g : List (List Nat)} {cutoff : ℚ}
    {nb : Nat} (huniq : npUnique g = List.range (nb + 1)) {x : Nat}
    (hx : x ≠ 0) :
    x ∈ (removeSmall g cutoff).flatten ↔
      x ∈ g.flatten ∧ ¬ (labelSize g x : ℚ) < cutoff := by
  rw [flatten_removeSmall]
  constructor
  · intro hm
    rcases List.mem_map.1 hm with ⟨v, hv, hfv⟩
    by_cases hb : (smallSizeFilter g cutoff).getD v false = true
    · rw [if_pos hb] at hfv
      exact absurd hfv.symm hx
    · rw [if_neg hb] at hfv
      subst hfv
      refine ⟨hv, ?_⟩
      rw [smallSizeFilter_getD g cutoff nb huniq
        (val_lt_of_uniq huniq hv)] at hb
      simpa using hb
  · rintro ⟨hv, hns⟩
    refine List.mem_map.2 ⟨x, hv, ?_⟩
    rw [smallSizeFilter_getD g cutoff nb huniq (val_lt_of_uniq huniq hv)]
    simp [hns]

theorem zero_mem_removeSmall {g : List (List Nat)} {cutoff : ℚ} {nb : Nat}
    (huniq : npUnique g = List.range (nb + 1)) :
    (0 : Nat) ∈ (removeSmall g cutoff).flatten := by
  rw [flatten_removeSmall]
  refine List.mem_map.2 ⟨0, zero_mem_flatten_of_uniq huniq, ?_⟩
  by_cases hb : (smallSizeFilter g cutoff).getD 0 false = true <;>
    simp [hb]

theorem count_map_pres {f : Nat → Nat} {x : Nat}
    (hf : ∀ v, f v = x ↔ v = x) :
    ∀ l : List Nat, (l.map f).count x = l.count x
  | [] => rfl
  | a :: t => by
    rw [List.map_cons, List.count_cons, List.count_cons,
      count_map_pres hf t]
    by_cases hax : a = x
    · subst hax
      have h1 : f a = a := (hf a).2 rfl
      simp [h1]
    · have h1 : ¬ f a = x := fun hc => hax ((hf a).1 hc)
      simp [hax, h1]

theorem count_true_map_decide (x : Nat) :
    ∀ l : List Nat, (l.map (fun v => decide (v = x))).count true = l.count x
  | [] => rfl
  | a :: t => by
    rw [List.map_cons, List.count_cons, List.count_cons,
      count_true_map_decide x t]
    by_cases hax : a = x <;> simp [hax]

theorem count_removeSmall {g : List (List Nat)} {cutoff : ℚ} {nb : Nat}
    (huniq : npUnique g = List.range (nb + 1)) {x : Nat} (hx : x ≠ 0)
    (hxlt : x < nb + 1) (hns : ¬ (labelSize g x : ℚ) < cutoff) :
    labelSize (removeSmall g cutoff) x = labelSize g x := by
  rw [labelSize, labelSize, flatten_removeSmall]
  have hf : ∀ v, ((if (smallSizeFilter g cutoff).getD v false then 0
      else v) = x ↔ v = x) := by
    intro v
    constructor
    · intro hv
      by_cases hb : (smallSizeFilter g cutoff).getD v false = true
      · rw [if_pos hb] at hv
        exact absurd hv.symm hx
      · rwa [if_neg hb] at hv
    · intro hv
      subst hv
      rw [smallSizeFilter_getD g cutoff nb huniq hxlt]
      simp [hns]
  exact count_map_pres hf g.flatten

theorem mem_roiLabels {g2 : List (List Nat)} (h0 : (0 : Nat) ∈ g2.flatten)
    (x : Nat) : x ∈ (npUnique g2).drop 1 ↔ x ∈ g2.flatten ∧ x ≠ 0 := by
  rw [mem_drop_one_sorted (sorted_npUnique g2) (nodup_npUnique g2)
    (mem_npUnique.2 h0) x, mem_npUnique]

/-! ## Claim theorems C7 and C9 -/

/-- C7: `Segmentation.make` thresholds the fetched average image (the input
of the external labeling, reflected in `hlab`), zeroes every connected
component whose pixel count is below `size_cutoff`, stores the resulting
label image as `segmented_masks`, and stores one `Roi` row per remaining
nonzero label with mask `label image == label`; a pixel of
`segmented_masks` is nonzero only where the average image exceeds
`threshold`. -/
theorem segmentation_make_steps
    (avg : List (List ℚ)) (threshold size_cutoff : ℚ)
    (g : List (List Nat)) (nb w h : Nat)
    (hg : Rect g w h)
    (hlab : ∀ i < w, ∀ j < h,
      (px g 0 i j ≠ 0 ↔ threshold < px avg 0 i j))
    (huniq : npUnique g = List.range (nb + 1)) :
    (segMake size_cutoff g).segmented_masks = removeSmall g size_cutoff ∧
    (∀ i < w, ∀ j < h, px (segMake size_cutoff g).segmented_masks 0 i j =
      if (labelSize g (px g 0 i j) : ℚ) < size_cutoff then 0
      else px g 0 i j) ∧
    (∀ i < w, ∀ j < h,
      px (segMake size_cutoff g).segmented_masks 0 i j ≠ 0 →
        threshold < px avg 0 i j) ∧
    (segMake size_cutoff g).rois =
      ((npUnique (removeSmall g size_cutoff)).drop 1).map (fun l =>
        (l, (removeSmall g size_cutoff).map (fun row =>
          row.map (fun v => decide (v = l))))) := by
  have hmask : (segMake size_cutoff g).segmented_masks =
      removeSmall g size_cutoff := rfl
  refine ⟨hmask, ?_, ?_, rfl⟩
  · intro i hi j hj
    rw [hmask]
    exact px_removeSmall g size_cutoff nb w h hg huniq hi hj
  · intro i hi j hj hne
    rw [hmask, px_removeSmall g size_cutoff nb w h hg huniq hi hj] at hne
    by_cases hc : (labelSize g (px g 0 i j) : ℚ) < size_cutoff
    · rw [if_pos hc] at hne
      exact absurd rfl hne
    · rw [if_neg hc] at hne
      exact (hlab i hi j hj).1 hne

/-- Witness for C7 on a 2-by-2 image with one above-threshold column. -/
theorem segmentation_make_steps_witness :
    Rect ([[1, 0], [1, 0]] : List (List Nat)) 2 2 ∧
    (∀ i < 2, ∀ j < 2,
      (px ([[1, 0], [1, 0]] : List (List Nat)) 0 i j ≠ 0 ↔
        (50 : ℚ) < px [[(60 : ℚ), 10], [60, 10]] 0 i j)) ∧
    npUnique [[1, 0], [1, 0]] = List.range 2 ∧
    (∀ i < 2, ∀ j < 2,
      px (segMake 2 [[1, 0], [1, 0]]).segmented_masks 0 i j ≠ 0 →
        (50 : ℚ) < px [[(60 : ℚ), 10], [60, 10]] 0 i j) :=
  ⟨by decide, by decide, by decide,
    (segmentation_make_steps [[(60 : ℚ), 10], [60, 10]] 50 2
      [[1, 0], [1, 0]] 1 2 2 (by decide) (by decide) (by decide)).2.2.1⟩

/-- C9: every `Roi` row produced by one `Segmentation.make` execution has a
mask of at least `size_cutoff` pixels, its `roi_idx` is a nonzero label of
the filtered label image, the `roi_idx` values are exactly the distinct
nonzero labels remaining after the size filter, and the reported ROI count
equals the number of `Roi` rows inserted. -/
theorem segmentation_roi_properties
    (size_cutoff : ℚ) (g : List (List Nat)) (nb : Nat)
    (huniq : npUnique g = List.range (nb + 1)) :
    (∀ r ∈ (segMake size_cutoff g).rois,
      size_cutoff ≤ ((r.2.flatten.count true : Nat) : ℚ) ∧
      r.1 ≠ 0 ∧
      r.1 ∈ (segMake size_cutoff g).segmented_masks.flatten) ∧
    (∀ x, x ∈ (segMake size_cutoff g).rois.map Prod.fst ↔
      x ∈ (segMake size_cutoff g).segmented_masks.flatten ∧ x ≠ 0) ∧
    ((segMake size_cutoff g).rois.map Prod.fst).Nodup ∧
    (segMake size_cutoff g).reported =
      (segMake size_cutoff g).rois.length := by
  have hmask : (segMake size_cutoff g).segmented_masks =
      removeSmall g size_cutoff := rfl
  have hrois : (segMake size_cutoff g).rois =
      ((npUnique (removeSmall g size_cutoff)).drop 1).map (fun l =>
        (l, (removeSmall g size_cutoff).map (fun row =>
          row.map (fun v => decide (v = l))))) := rfl
  have h0 : (0 : Nat) ∈ (removeSmall g size_cutoff).flatten :=
    zero_mem_removeSmall huniq
  have hchar : ∀ x, x ∈ (npUnique (removeSmall g size_cutoff)).drop 1 ↔
      x ∈ (removeSmall g size_cutoff).flatten ∧ x ≠ 0 :=
    mem_roiLabels h0
  have hfst : (Prod.fst ∘ fun l => ((l : Nat),
      (removeSmall g size_cutoff).map (fun row =>
        row.map (fun v => decide (v = l))))) = id := rfl
  refine ⟨?_, ?_, ?_, rfl⟩
  · intro r hr
    rw [hrois] at hr
    rcases List.mem_map.1 hr with ⟨l, hl, rfl⟩
    obtain ⟨hlf, hl0⟩ := (hchar l).1 hl
    obtain ⟨hlg, hns⟩ := (nonzero_mem_removeSmall huniq hl0).1 hlf
    have hlt : l < nb + 1 := val_lt_of_uniq huniq hlg
    refine ⟨?_, hl0, by rw [hmask]; exact hlf⟩
    have hcnt : ((removeSmall g size_cutoff).map (fun row =>
        row.map (fun v => decide (v = l)))).flatten.count true =
        labelSize (removeSmall g size_cutoff) l := by
      rw [show ((removeSmall g size_cutoff).map (fun row =>
          row.map (fun v => decide (v = l)))).flatten =
          (removeSmall g size_cutoff).flatten.map
            (fun v => decide (v = l))
        from (List.map_flatten _ _).symm,
        count_true_map_decide l, labelSize]
    show size_cutoff ≤ _
    rw [hcnt, count_removeSmall huniq hl0 hlt hns]
    exact le_of_not_lt hns
  · intro x
    rw [hrois, hmask, List.map_map, hfst, List.map_id]
    exact hchar x
  · rw [hrois, List.map_map, hfst, List.map_id]
    exact (nodup_npUnique _).sublist (List.drop_sublist 1 _)

/-- Witness for C9 on a 2-by-2 image with a three-pixel label. -/
theorem segmentation_roi_properties_witness :
    npUnique [[1, 1], [1, 0]] = List.range 2 ∧
    (∀ r ∈ (segMake 2 [[1, 1], [1, 0]]).rois,
      (2 : ℚ) ≤ ((r.2.flatten.count true : Nat) : ℚ) ∧
      r.1 ≠ 0 ∧
      r.1 ∈ (segMake 2 [[1, 1], [1, 0]]).segmented_masks.flatten) :=
  ⟨by decide,
    (segmentation_roi_properties 2 [[1, 1], [1, 0]] 1 (by decide)).1⟩

end DJT
